import Mathlib

/-!
Shallow embedding of the icebreaker model catalog (src/core/src/model.rs):
identity types, the precision classifier used by File::list, the gating
filter of HFModel::search, the Library scan / save_bookmarks pipeline with
its JSON bookmark (de)serialization, and the two download entry points.

Rust strings are modelled as `List Char` (wrapped in `String` at the
boundaries); `HashMap` is modelled as an association list built by
last-wins insertion, mirroring `collect::<HashMap<_, _>>()`.
-/

namespace Icebreaker

/-- Character-level prefix test: the embedding of `str::starts_with`
specialised to the concrete patterns the classifier uses.  The first
argument is the pattern, the second the scanned text. -/
def isPre : List Char → List Char → Bool
  | [], _ => true
  | _ :: _, [] => false
  | a :: ps, b :: ss => decide (a = b) && isPre ps ss

/-- Fuel-driven repeated prefix stripping: the embedding of Rust
`str::trim_start_matches` for a non-empty pattern.  Each round removes one
leading occurrence of the pattern; fuel `s.length` is enough because every
successful round shortens the text by at least one character. -/
def trimStartFuel (p : List Char) : Nat → List Char → List Char
  | 0, s => s
  | n + 1, s =>
    if !p.isEmpty && isPre p s then trimStartFuel p n (s.drop p.length) else s

/-- Rust `str::trim_start_matches`: remove every leading occurrence of
the pattern `p`. -/
def trimStartMatches (p s : List Char) : List Char :=
  trimStartFuel p s.length s

/-- Rust `str::trim_end_matches`: remove every trailing occurrence of the
pattern `p`, implemented by stripping the reversed pattern from the front
of the reversed text. -/
def trimEndMatches (p s : List Char) : List Char :=
  (trimStartMatches p.reverse s.reverse).reverse

/-- Splitting on a character class, keeping empty segments exactly as
Rust `str::split` does; the result is never empty. -/
def splitOnP (p : Char → Bool) : List Char → List (List Char)
  | [] => [[]]
  | c :: cs =>
    match splitOnP p cs with
    | [] => [[]]
    | s :: ss => if p c then [] :: s :: ss else (c :: s) :: ss

/-- The delimiter class `['-', '.']` of the variant extractor. -/
def isDelim (c : Char) : Bool := c == '-' || c == '.'

/-- Extension stripping as in `entry.path.trim_end_matches(".gguf")`. -/
def stemOf (path : String) : List Char :=
  trimEndMatches ".gguf".toList path.toList

/-- Trailing dash/dot token: `stem.rsplit(['-', '.']).next()` — the last
segment of the split, as an option, shared by the classifier and
`File::variant`. -/
def lastTok (stem : List Char) : Option (List Char) :=
  (splitOnP isDelim stem).getLast?

/-- The classifier's variant token, including the (dead) fallback
`unwrap_or(file_stem)` of `File::list`. -/
def variantTok (path : String) : List Char :=
  (lastTok (stemOf path)).getD (stemOf path)

/-- Segment before the first underscore:
`variant.split('_').next().unwrap_or(variant)`. -/
def usHead (v : List Char) : List Char :=
  ((splitOnP (fun c => c == '_') v).head?).getD v

/-- ASCII digit test used by integer parsing. -/
def isDigitCh (c : Char) : Bool := '0' ≤ c && c ≤ '9'

/-- Numeric value of a digit string. -/
def digitsToNat (l : List Char) : Nat :=
  l.foldl (fun a c => a * 10 + (c.toNat - '0'.toNat)) 0

/-- Rust `u64::from_str` (the `variant.parse()` call): an optional leading
`+`, then at least one ASCII digit, rejecting values at or above `2 ^ 64`. -/
def parseU64 (s : List Char) : Option Nat :=
  let digits := match s with
    | '+' :: rest => rest
    | _ => s
  if !digits.isEmpty && digits.all isDigitCh && decide (digitsToNat digits < 2 ^ 64) then
    some (digitsToNat digits)
  else none

/-- The chained prefix stripping of `File::list` (lines 448-451):
`.trim_start_matches("IQ").trim_start_matches("Q")`
`.trim_start_matches("BF").trim_start_matches("F")`, innermost first. -/
def stripPrefixes (v : List Char) : List Char :=
  trimStartMatches "F".toList
    (trimStartMatches "BF".toList
      (trimStartMatches "Q".toList
        (trimStartMatches "IQ".toList v)))

/-- Quantization bucket (`Bits(u64)`). -/
structure Bits where
  val : Nat
deriving DecidableEq, Repr

/-- The full precision classifier of `File::list` (lines 442-453): variant
token, underscore head, prefix stripping, `u64` parse, `Bits`. -/
def precisionOf (path : String) : Option Bits :=
  (parseU64 (stripPrefixes (usHead (variantTok path)))).map Bits.mk

/-- Model identity `Id(pub String)` of the form `author/name`. -/
structure Id where
  str : String
deriving DecidableEq, Repr

/-- Byte size wrapper `Size(u64)`. -/
structure Size where
  val : Nat
deriving DecidableEq, Repr

/-- A concrete downloadable artifact (`File`). -/
structure File where
  model : Id
  name : String
  size : Option Size
deriving DecidableEq, Repr

/-- Embedding of `File::variant` (lines 530-535): the result is an
`Option` exactly as in the source (`rsplit(['-', '.']).next()`), with no
fallback. -/
def File.variant (f : File) : Option (List Char) :=
  lastTok (stemOf f.name)

/-- One entry of the decoded `/tree/main` response in `File::list`. -/
structure TreeEntry where
  type_ : String
  path : String
  size : Nat
deriving Repr

/-- Rust `str::ends_with(".gguf")`: a single (non-repeated) suffix test. -/
def endsWithGguf (p : String) : Bool :=
  isPre ".gguf".toList.reverse p.toList.reverse

/-- One iteration of the grouping loop of `File::list`: skip non-files and
non-gguf paths, classify, silently drop unparseable variants, append the
kept file to its bucket. -/
def fileListStep (id : Id) (m : Bits → List File) (e : TreeEntry) : Bits → List File :=
  if e.type_ == "file" && endsWithGguf e.path then
    match precisionOf e.path with
    | some b => fun x => if x = b then m x ++ [⟨id, e.path, some ⟨e.size⟩⟩] else m x
    | none => m
  else m

/-- The grouped listing built by `File::list` (the HTTP fetch is the
environment; `entries` is the decoded tree response).  The `BTreeMap` is
modelled as the bucket-indexed family of its per-bucket file lists. -/
def fileList (id : Id) (entries : List TreeEntry) : Bits → List File :=
  entries.foldl (fileListStep id) (fun _ => [])

/-- Stripping exactly as claim C3 words it: among the prefixes `IQ`, `Q`,
`BF`, `F` in that order, remove one occurrence of the first prefix that
matches and do not strip further. -/
def claimStripOnce (v : List Char) : List Char :=
  if isPre "IQ".toList v then v.drop 2
  else if isPre "Q".toList v then v.drop 1
  else if isPre "BF".toList v then v.drop 2
  else if isPre "F".toList v then v.drop 1
  else v

/-- Removing every leading occurrence of a one-character pattern, written
as a direct structural recursion (spec side of the amended claim C3). -/
def dropAllOne (x : Char) : List Char → List Char
  | a :: rest => if a = x then dropAllOne x rest else a :: rest
  | [] => []

/-- Removing every leading occurrence of a two-character pattern, written
as a direct structural recursion (spec side of the amended claim C3). -/
def dropAllTwo (x y : Char) : List Char → List Char
  | a :: b :: rest => if a = x ∧ b = y then dropAllTwo x y rest else a :: b :: rest
  | s => s

/-- Removing every leading occurrence of `IQ`. -/
def dropAllIQ : List Char → List Char := dropAllTwo 'I' 'Q'

/-- Removing every leading `Q`. -/
def dropAllQ : List Char → List Char := dropAllOne 'Q'

/-- Removing every leading occurrence of `BF`. -/
def dropAllBF : List Char → List Char := dropAllTwo 'B' 'F'

/-- Removing every leading `F`. -/
def dropAllF : List Char → List Char := dropAllOne 'F'

/-- The untagged `gated` field of a search result
(`enum Gated { Bool(bool), Other(String) }`): JSON booleans land in
`bool`, JSON strings in `other`. -/
inductive Gated where
  | bool (b : Bool)
  | other (s : String)
deriving DecidableEq, Repr

/-- One decoded element of the `/models` search response
(`struct Response` inside `HFModel::search`); the timestamp is reduced to
an integer, which is all the claims need. -/
structure SearchResponse where
  id : Id
  lastModified : Int
  downloads : Nat
  likes : Nat
  gated : Gated
deriving DecidableEq, Repr

/-- The client-side gating filter of `HFModel::search` (line 200):
`models.retain(|model| model.gated == Gated::Bool(false))`. -/
def searchRetain (models : List SearchResponse) : List SearchResponse :=
  models.filter (fun m => m.gated == Gated.bool false)

/-- The metadata snapshot `HFModel` (id, last-modified, downloads, likes). -/
structure HFModel where
  id : Id
  lastModified : Int
  downloads : Nat
  likes : Nat
deriving DecidableEq, Repr

/-- The tail of `HFModel::search`: gate filtering followed by projection
into `HFModel` values (lines 200-210). -/
def searchModels (models : List SearchResponse) : List HFModel :=
  (searchRetain models).map fun m => ⟨m.id, m.lastModified, m.downloads, m.likes⟩

/-- A JSON document, the target of the serde_json calls in the source.
Numbers are split by the Rust type that produced them. -/
inductive Json where
  | null
  | bool (b : Bool)
  | num (x : Float)
  | str (s : String)
  | arr (elems : List Json)
  | obj (fields : List (String × Json))

/-- Remote provider kind (`APIType`), three unit variants. -/
inductive APIType where
  | NanoGPT
  | OpenAI
  | OpenAICompatible
deriving DecidableEq, Repr

/-- Stand-in for `langchain_rust::llm::OpenAIConfigSerde`, an external
dependency type: a plain record of connection strings with derived serde
semantics.  Its exact field set does not matter for the claims, only that
a derived plain-struct encoding round-trips. -/
structure OpenAIConfigSerde where
  api_base : String
  api_key : String
deriving DecidableEq, Repr

/-- Credentials and kind of a configured provider (`APIAccess`). -/
structure APIAccess where
  openai_compat : Option OpenAIConfigSerde
  kind : APIType
deriving DecidableEq, Repr

/-- Health flag of a remote model (`StatusCheck`). -/
inductive StatusCheck where
  | Unchecked
  | CheckingStatus
  | Up
  | Down
deriving DecidableEq, Repr

/-- Currency of a price (`Currency`). -/
inductive Currency where
  | USD

/-- A price (`Quantity`); the `f64` components are modelled as `Float`. -/
structure Quantity where
  num : Float
  unit : Currency
  denom : Float

/-- Prompt/completion pricing (`Cost`). -/
structure Cost where
  prompt : Quantity
  completion : Quantity

/-- The universal registry key (`EndpointId`). -/
inductive EndpointId where
  | Local (id : Id)
  | Remote (api_type : APIType) (id : Id)
deriving DecidableEq, Repr

/-- Recover the underlying `Id` of either variant (`EndpointId::slash_id`). -/
def EndpointId.slash_id : EndpointId → Id
  | .Local id => id
  | .Remote _ id => id

/-- A remote-API-backed model (`ModelOnline`); the reclaiming shared cell
`ArcRCUNonNull<StatusCheck>` serializes transparently as its inner value,
so it is modelled by that value. -/
structure ModelOnline where
  endpoint_id : EndpointId
  cost : Option Cost
  config : APIAccess
  state_check : StatusCheck

/-- A registry value (`FileOrAPI`). -/
inductive FileOrAPI where
  | File (f : File)
  | API (m : ModelOnline)

/-- The persisted bookmark payload (`APIBookmarks`); the two `HashMap`
fields are modelled as their entry lists and the `Vec` as a list. -/
structure APIBookmarks where
  api_src : List (APIType × APIAccess)
  apis : List (EndpointId × ModelOnline)
  bookmarks : List EndpointId

/-- The `Default` of `APIBookmarks`: empty maps, empty bookmark list. -/
def emptyBookmarks : APIBookmarks := ⟨[], [], []⟩

/-- Sequential option-valued map over a list, failing as soon as one
element fails; the spine of every composite decoder below. -/
def omapM {α β : Type} (f : α → Option β) : List α → Option (List β)
  | [] => some []
  | a :: as => do
    let b ← f a
    let bs ← omapM f as
    pure (b :: bs)

/-- Serialization of the unit-variant enum `APIType`: serde writes the
variant name, both as a JSON value and as a map key. -/
def encodeAPIType : APIType → String
  | .NanoGPT => "NanoGPT"
  | .OpenAI => "OpenAI"
  | .OpenAICompatible => "OpenAICompatible"

/-- Deserialization of `APIType` from a variant-name string. -/
def decodeAPIType (s : String) : Option APIType :=
  if s = "NanoGPT" then some .NanoGPT
  else if s = "OpenAI" then some .OpenAI
  else if s = "OpenAICompatible" then some .OpenAICompatible
  else none

/-- Field access in a decoded JSON object (first binding wins, as in
serde_json's map visitor for well-formed input). -/
def getField (fields : List (String × Json)) (k : String) : Option Json :=
  (fields.find? (fun p => p.1 == k)).map Prod.snd

/-- Decode a JSON string. -/
def decodeStr : Json → Option String
  | .str s => some s
  | _ => none

/-- Decode a JSON number as the `f64` it came from. -/
def decodeNum : Json → Option Float
  | .num x => some x
  | _ => none

/-- Serde encoding of an `Option`: `None` is `null`, `Some` is the value. -/
def encodeOptionWith {α : Type} (enc : α → Json) : Option α → Json
  | none => .null
  | some a => enc a

/-- Serde decoding of an `Option`: `null` is `None`, otherwise the value. -/
def decodeOptionWith {α : Type} (dec : Json → Option α) : Json → Option (Option α)
  | .null => some none
  | j => (dec j).map some

/-- Derived serialization of the external `OpenAIConfigSerde` record. -/
def encodeOpenAIConfig (c : OpenAIConfigSerde) : Json :=
  .obj [("api_base", .str c.api_base), ("api_key", .str c.api_key)]

/-- Derived deserialization of the external `OpenAIConfigSerde` record. -/
def decodeOpenAIConfig (j : Json) : Option OpenAIConfigSerde :=
  match j with
  | .obj fs => do
    let b ← getField fs "api_base" >>= decodeStr
    let k ← getField fs "api_key" >>= decodeStr
    pure ⟨b, k⟩
  | _ => none

/-- Derived serialization of `APIAccess` (fields in declaration order). -/
def encodeAPIAccess (a : APIAccess) : Json :=
  .obj [("openai_compat", encodeOptionWith encodeOpenAIConfig a.openai_compat),
        ("kind", .str (encodeAPIType a.kind))]

/-- Derived deserialization of `APIAccess`. -/
def decodeAPIAccess (j : Json) : Option APIAccess :=
  match j with
  | .obj fs => do
    let ocj ← getField fs "openai_compat"
    let oc ← decodeOptionWith decodeOpenAIConfig ocj
    let kj ← getField fs "kind"
    let ks ← decodeStr kj
    let kind ← decodeAPIType ks
    pure ⟨oc, kind⟩
  | _ => none

/-- Serialization of the `api_src` map: `APIType` keys become variant-name
strings, which serde_json accepts as map keys. -/
def encodeApiSrc (l : List (APIType × APIAccess)) : Json :=
  .obj (l.map fun p => (encodeAPIType p.1, encodeAPIAccess p.2))

/-- Deserialization of the `api_src` map. -/
def decodeApiSrc (j : Json) : Option (List (APIType × APIAccess)) :=
  match j with
  | .obj fs => omapM (fun p => do
      let t ← decodeAPIType p.1
      let a ← decodeAPIAccess p.2
      pure (t, a)) fs
  | _ => none

/-- Externally tagged serialization of an `EndpointId` used as a JSON
value (inside `bookmarks` and inside a `ModelOnline`). -/
def encodeEndpointId : EndpointId → Json
  | .Local id => .obj [("Local", .str id.str)]
  | .Remote t id =>
    .obj [("Remote", .obj [("api_type", .str (encodeAPIType t)), ("id", .str id.str)])]

/-- Externally tagged deserialization of an `EndpointId` value. -/
def decodeEndpointId (j : Json) : Option EndpointId :=
  match j with
  | .obj [(tag, v)] =>
    if tag = "Local" then (decodeStr v).map (fun s => .Local ⟨s⟩)
    else if tag = "Remote" then
      match v with
      | .obj fs => do
        let ts ← getField fs "api_type" >>= decodeStr
        let t ← decodeAPIType ts
        let ids ← getField fs "id" >>= decodeStr
        pure (.Remote t ⟨ids⟩)
      | _ => none
    else none
  | _ => none

/-- Serialization of a `StatusCheck` (unit variants). -/
def encodeStatusCheck : StatusCheck → Json
  | .Unchecked => .str "Unchecked"
  | .CheckingStatus => .str "CheckingStatus"
  | .Up => .str "Up"
  | .Down => .str "Down"

/-- Deserialization of a `StatusCheck`. -/
def decodeStatusCheck (j : Json) : Option StatusCheck :=
  match j with
  | .str s =>
    if s = "Unchecked" then some .Unchecked
    else if s = "CheckingStatus" then some .CheckingStatus
    else if s = "Up" then some .Up
    else if s = "Down" then some .Down
    else none
  | _ => none

/-- Serialization of a `Quantity` (`num`, `unit`, `denom`). -/
def encodeQuantity (q : Quantity) : Json :=
  .obj [("num", .num q.num), ("unit", .str "USD"), ("denom", .num q.denom)]

/-- Deserialization of a `Quantity`. -/
def decodeQuantity (j : Json) : Option Quantity :=
  match j with
  | .obj fs => do
    let n ← getField fs "num" >>= decodeNum
    let u ← getField fs "unit" >>= decodeStr
    let d ← getField fs "denom" >>= decodeNum
    if u = "USD" then pure ⟨n, .USD, d⟩ else none
  | _ => none

/-- Serialization of a `Cost`. -/
def encodeCost (c : Cost) : Json :=
  .obj [("prompt", encodeQuantity c.prompt), ("completion", encodeQuantity c.completion)]

/-- Deserialization of a `Cost`. -/
def decodeCost (j : Json) : Option Cost :=
  match j with
  | .obj fs => do
    let p ← getField fs "prompt" >>= decodeQuantity
    let c ← getField fs "completion" >>= decodeQuantity
    pure ⟨p, c⟩
  | _ => none

/-- Derived serialization of a `ModelOnline` used as a JSON value (the
per-model descriptor file and the values of `apis`). -/
def encodeModelOnline (m : ModelOnline) : Json :=
  .obj [("endpoint_id", encodeEndpointId m.endpoint_id),
        ("cost", encodeOptionWith encodeCost m.cost),
        ("config", encodeAPIAccess m.config),
        ("state_check", encodeStatusCheck m.state_check)]

/-- Derived deserialization of a `ModelOnline` value. -/
def decodeModelOnline (j : Json) : Option ModelOnline :=
  match j with
  | .obj fs => do
    let e ← getField fs "endpoint_id" >>= decodeEndpointId
    let cj ← getField fs "cost"
    let c ← decodeOptionWith decodeCost cj
    let cfg ← getField fs "config" >>= decodeAPIAccess
    let st ← getField fs "state_check" >>= decodeStatusCheck
    pure ⟨e, c, cfg, st⟩
  | _ => none

/-- JSON map-key serialization of an `EndpointId`: serde_json accepts only
plain strings, integers and unit enum variants as map keys and rejects
data-carrying variants with its key-must-be-a-string error; both
`EndpointId` variants carry data, so no key ever serializes. -/
def endpointIdKey : EndpointId → Option String := fun _ => none

/-- Map-key deserialization of an `EndpointId` from a JSON object key:
serde_json offers the key string as a unit-variant enum tag, which never
matches the data-carrying `Local` and `Remote` variants. -/
def decodeEndpointIdKey : String → Option EndpointId := fun _ => none

/-- Serialization of the `apis` map of `APIBookmarks`; `none` models the
serde_json error raised on a non-string map key. -/
def encodeApis (l : List (EndpointId × ModelOnline)) : Option Json :=
  (omapM (fun p => (endpointIdKey p.1).map (fun k => (k, encodeModelOnline p.2))) l).map .obj

/-- Deserialization of the `apis` map of `APIBookmarks`. -/
def decodeApis (j : Json) : Option (List (EndpointId × ModelOnline)) :=
  match j with
  | .obj fs => omapM (fun p => do
      let k ← decodeEndpointIdKey p.1
      let m ← decodeModelOnline p.2
      pure (k, m)) fs
  | _ => none

/-- The `serde_json::to_string_pretty(&api_bookmarks)` call of
`save_bookmarks`, up to the JSON tree; `none` is a serialization error. -/
def encodeAPIBookmarks (b : APIBookmarks) : Option Json :=
  (encodeApis b.apis).map fun apisJ =>
    .obj [("api_src", encodeApiSrc b.api_src), ("apis", apisJ),
          ("bookmarks", .arr (b.bookmarks.map encodeEndpointId))]

/-- Deserialization of the `bookmarks` sequence of `APIBookmarks`. -/
def decodeBookmarksList (j : Json) : Option (List EndpointId) :=
  match j with
  | .arr elems => omapM decodeEndpointId elems
  | _ => none

/-- The `serde_json::from_str::<APIBookmarks>` call of `scan`, from the
JSON tree. -/
def decodeAPIBookmarks (j : Json) : Option APIBookmarks :=
  match j with
  | .obj fs => do
    let s ← getField fs "api_src" >>= decodeApiSrc
    let a ← getField fs "apis" >>= decodeApis
    let bs ← getField fs "bookmarks" >>= decodeBookmarksList
    pure ⟨s, a, bs⟩
  | _ => none

/-- The bookmark read of `Library::scan` (lines 680-683): a failed
`read_to_string` (outer `error`) or text that is not JSON (`ok none`) or a
JSON tree of the wrong shape all yield the empty default, via
`unwrap_or_default`. -/
def readBookmarksFile : Except Unit (Option Json) → APIBookmarks
  | .error _ => emptyBookmarks
  | .ok none => emptyBookmarks
  | .ok (some j) => (decodeAPIBookmarks j).getD emptyBookmarks

/-- Association-list lookup (first binding wins); the read side of the
`HashMap` model. -/
def alookup {α β : Type} [DecidableEq α] (k : α) : List (α × β) → Option β
  | [] => none
  | p :: ps => if p.1 = k then some p.2 else alookup k ps

/-- `HashMap::insert`: drop any existing binding of the key, append the
new one. -/
def upsert {α β : Type} [DecidableEq α] (m : List (α × β)) (k : α) (v : β) :
    List (α × β) :=
  m.filter (fun p => !decide (p.1 = k)) ++ [(k, v)]

/-- `collect::<HashMap<_, _>>()` over a key-value sequence: insert each
pair in order, later pairs overwriting earlier ones. -/
def collectMap {α β : Type} [DecidableEq α] (l : List (α × β)) : List (α × β) :=
  l.foldl (fun m p => upsert m p.1 p.2) []

/-- The in-memory registry (`Library`); `directory` is the library root
path and `files` the merged catalog as a deduplicated entry list. -/
structure Library where
  directory : String
  api_src : List (APIType × APIAccess)
  files : List (EndpointId × FileOrAPI)
  bookmarks : List EndpointId

/-- The registry merge of `Library::scan` (lines 687-692): the bookmark
file's `apis` entries first, then the freshly scanned local files,
collected into one map. -/
def scanFiles (apis : List (EndpointId × ModelOnline))
    (locals : List (EndpointId × File)) : List (EndpointId × FileOrAPI) :=
  collectMap (apis.map (fun p => (p.1, FileOrAPI.API p.2))
    ++ locals.map (fun p => (p.1, FileOrAPI.File p.2)))

/-- `Library::scan` after a successful directory walk: `locals` is the
list of `(EndpointId::Local, File)` pairs the walk inserted (in insertion
order) and `book` the outcome of reading the bookmark file. -/
def scanModel (dir : String) (locals : List (EndpointId × File))
    (book : Except Unit (Option Json)) : Library :=
  let b := readBookmarksFile book
  ⟨dir, b.api_src, scanFiles b.apis locals, b.bookmarks⟩

/-- `Library::scan` including the fallibility of the walk itself: errors
of the local directory walk propagate, while the bookmark read never
fails (lines 632-696). -/
def scanExc (dir : String) (walk : Except Unit (List (EndpointId × File)))
    (book : Except Unit (Option Json)) : Except Unit Library :=
  walk.map (fun locals => scanModel dir locals book)

/-- The `APIBookmarks` value assembled by `Library::save_bookmarks`
(lines 700-711): `api_src`, the API-kind subset of `files` via
`filter_map`, and `bookmarks`. -/
def saveAB (lib : Library) : APIBookmarks :=
  ⟨lib.api_src,
   lib.files.filterMap (fun p =>
     match p.2 with
     | .API a => some (p.1, a)
     | .File _ => none),
   lib.bookmarks⟩

/-- `save_bookmarks` up to the filesystem write: the serialized bookmark
JSON, `none` when `serde_json::to_string_pretty` fails. -/
def saveBookmarksJson (lib : Library) : Option Json :=
  encodeAPIBookmarks (saveAB lib)

/-- The slice of filesystem state that `File::download` inspects:
the size of whatever sits at the destination `model_path`, the size of a
same-named file in the legacy flat directory, and the size the network
transfer would produce. -/
structure DlFs where
  dest : Option Nat
  legacy : Option Nat
  remote : Nat
deriving DecidableEq, Repr

/-- How a `File::download` call ended. -/
inductive DlResult where
  | existing
  | migrated
  | fetched
deriving DecidableEq, Repr

/-- Steps 3-4 of `File::download` (lines 492-509): copy from the legacy
flat layout and delete the legacy file when the copy succeeds, else
stream from the network into a temporary file and rename it into place. -/
def migrateOrFetch (fs : DlFs) : DlFs × DlResult :=
  match fs.legacy with
  | some l => ({ fs with dest := some l, legacy := none }, .migrated)
  | none => ({ fs with dest := some fs.remote }, .fetched)

/-- `File::download` (lines 482-509): if the destination exists and the
recorded size is absent or matches, return it untouched; if it exists
with a mismatched size, delete it and fall through; otherwise migrate or
fetch. -/
def fileDownload (f : File) (fs : DlFs) : DlFs × DlResult :=
  match fs.dest with
  | some len =>
    if (f.size.map Size.val).all (fun s => s = len) then (fs, .existing)
    else migrateOrFetch { fs with dest := none }
  | none => migrateOrFetch fs

/-- The optional-pair download selector (`FileAndAPI`). -/
structure FileAndAPI where
  file : Option File
  api : Option ModelOnline

/-- Replace every `/` of an id by `_`, as in `id.0.replace('/', "_")`. -/
def sanitizeId (s : String) : String :=
  s.map (fun c => if c = '/' then '_' else c)

/-- Result of `FileAndAPI::download`: the API arm returns the descriptor
path and the possibly-updated flat file store; the file arm delegates to
`File::download` (modelled separately as `fileDownload`); an empty pair
is an error. -/
inductive FaDlResult where
  | api (store : String → Option Json) (path : String)
  | file (f : File)
  | error

/-- `FileAndAPI::download` (lines 397-419): the API arm serializes the
`ModelOnline` descriptor to `<dir>/<sanitized id>.json` only when no file
exists at that path, and returns the path; match order is as in the
source (API first, then file, then the empty error). -/
def faDownload (fa : FileAndAPI) (dir : String)
    (store : String → Option Json) : FaDlResult :=
  match fa.api with
  | some ap =>
    let p := dir ++ "/" ++ sanitizeId (ap.endpoint_id.slash_id).str ++ ".json"
    match store p with
    | some _ => .api store p
    | none => .api (fun q => if q = p then some (encodeModelOnline ap) else store q) p
  | none =>
    match fa.file with
    | some f => .file f
    | none => .error

/-- A search result whose gate is the string "auto", as the hosting API
returns for manually gated repositories. -/
def autoGatedResponse : SearchResponse :=
  ⟨⟨"a/b"⟩, 0, 0, 0, .other "auto"⟩

/-- A concrete remote model descriptor used by the closed witnesses. -/
def apNano : ModelOnline :=
  ⟨.Remote .NanoGPT ⟨"a/b"⟩, none, ⟨none, .NanoGPT⟩, .Unchecked⟩

/-- A remote model descriptor carrying a `Local` endpoint id, the key
shape under which a bookmark entry could collide with a scanned file. -/
def apLocalKey : ModelOnline :=
  ⟨.Local ⟨"a/b"⟩, none, ⟨none, .NanoGPT⟩, .Unchecked⟩

/-- A concrete scanned local file used by the closed witnesses. -/
def file0 : File := ⟨⟨"a/b"⟩, "m-Q4_K_M.gguf", some ⟨10⟩⟩

/-- A concrete library holding one remote API entry and one local file
entry, used by the closed witnesses. -/
def lib0 : Library :=
  ⟨"lib", [],
   [(EndpointId.Remote .NanoGPT ⟨"a/b"⟩, FileOrAPI.API apNano),
    (EndpointId.Local ⟨"a/b"⟩, FileOrAPI.File file0)],
   []⟩

theorem trimStartFuel_succ (p : List Char) (n : Nat) (s : List Char) :
    trimStartFuel p (n + 1) s =
      if !p.isEmpty && isPre p s then trimStartFuel p n (s.drop p.length) else s := rfl

theorem dropAllTwo_cons (x y a b : Char) (u : List Char) :
    dropAllTwo x y (a :: b :: u)
      = if a = x ∧ b = y then dropAllTwo x y u else a :: b :: u := rfl

theorem dropAllOne_cons (x a : Char) (u : List Char) :
    dropAllOne x (a :: u) = if a = x then dropAllOne x u else a :: u := rfl

theorem trimStartFuel_two (x y : Char) :
    ∀ (n : Nat) (s : List Char), s.length ≤ n →
      trimStartFuel [x, y] n s = dropAllTwo x y s := by
  intro n
  induction n with
  | zero =>
    intro s hs
    cases s with
    | nil => rfl
    | cons a t => simp at hs
  | succ n ih =>
    intro s hs
    match s with
    | [] => rfl
    | [a] =>
      rw [trimStartFuel_succ]
      simp [isPre, dropAllTwo]
    | a :: b :: u =>
      rw [trimStartFuel_succ, dropAllTwo_cons]
      by_cases h : a = x ∧ b = y
      · obtain ⟨rfl, rfl⟩ := h
        have hu : u.length ≤ n := by simp at hs; omega
        simp [isPre, ih u hu]
      · have h1 : ¬ (x = a ∧ y = b) := fun hc => h ⟨hc.1.symm, hc.2.symm⟩
        have hpre : isPre [x, y] (a :: b :: u) = false := by
          by_cases hx : x = a
          · by_cases hy : y = b
            · exact absurd ⟨hx, hy⟩ h1
            · simp [isPre, hy]
          · simp [isPre, hx]
        simp [hpre, h]

theorem trimStartFuel_one (x : Char) :
    ∀ (n : Nat) (s : List Char), s.length ≤ n →
      trimStartFuel [x] n s = dropAllOne x s := by
  intro n
  induction n with
  | zero =>
    intro s hs
    cases s with
    | nil => rfl
    | cons a t => simp at hs
  | succ n ih =>
    intro s hs
    match s with
    | [] => rfl
    | a :: u =>
      rw [trimStartFuel_succ, dropAllOne_cons]
      by_cases h : a = x
      · subst h
        have hu : u.length ≤ n := by simp at hs; omega
        simp [isPre, ih u hu]
      · have hpre : isPre [x] (a :: u) = false := by
          simp only [isPre, Bool.and_true, decide_eq_false_iff_not]
          exact fun hx => h hx.symm
        simp [hpre, h]

theorem trimStartMatches_two (x y : Char) (s : List Char) :
    trimStartMatches [x, y] s = dropAllTwo x y s :=
  trimStartFuel_two x y s.length s (Nat.le_refl _)

theorem trimStartMatches_one (x : Char) (s : List Char) :
    trimStartMatches [x] s = dropAllOne x s :=
  trimStartFuel_one x s.length s (Nat.le_refl _)

/-- Claim C3 is false as stated: on the variant token `QF8` the code
strips the leading `Q` and then also the exposed `F` (yielding the digit
string `8` and hence an 8-bit bucket), whereas stripping only the first
matching prefix and nothing further would leave `F8`, which does not
parse. -/
theorem C3_strip_counterexample :
    stripPrefixes "QF8".toList = "8".toList ∧
      claimStripOnce "QF8".toList = "F8".toList ∧
      stripPrefixes "QF8".toList ≠ claimStripOnce "QF8".toList ∧
      precisionOf "m-QF8.gguf" = some ⟨8⟩ := by
  refine ⟨by decide, by decide, by decide, by decide⟩

/-- Claim C3 (amended): in the classifier each of the four patterns `IQ`,
`Q`, `BF`, `F` is applied in that order as a repeated prefix strip — each
removes every leading occurrence of itself, and each later pattern works
on the result of the earlier ones — so several different prefixes can be
removed from one token (for example `QF8` loses both `Q` and `F`). -/
theorem C3_strip_order_amended :
    (∀ v : List Char,
        stripPrefixes v = dropAllF (dropAllBF (dropAllQ (dropAllIQ v)))) ∧
      stripPrefixes "QF8".toList = "8".toList := by
  constructor
  · intro v
    show trimStartMatches "F".toList
        (trimStartMatches "BF".toList
          (trimStartMatches "Q".toList (trimStartMatches "IQ".toList v)))
      = dropAllF (dropAllBF (dropAllQ (dropAllIQ v)))
    rw [show "IQ".toList = ['I', 'Q'] from rfl, show "Q".toList = ['Q'] from rfl,
      show "BF".toList = ['B', 'F'] from rfl, show "F".toList = ['F'] from rfl]
    rw [trimStartMatches_two, trimStartMatches_one, trimStartMatches_two,
      trimStartMatches_one]
    rfl
  · decide

/-- Claim C1 is false as stated: a result whose `gated` field is the
string "auto" is removed by the filter (`retain` keeps only
`Gated::Bool(false)`), while the claimed filter — remove exactly the
boolean-true results — would keep it. -/
theorem C1_gated_filter_counterexample :
    searchRetain [autoGatedResponse] = [] ∧
      List.filter (fun m => !decide (m.gated = Gated.bool true)) [autoGatedResponse]
        = [autoGatedResponse] ∧
      autoGatedResponse.gated = Gated.other "auto" := by
  refine ⟨by decide, by decide, rfl⟩

/-- Claim C1 (amended): the filter retains exactly the results whose
`gated` field is the boolean false; both boolean-true and string-valued
gates are removed. -/
theorem C1_gated_filter_amended (models : List SearchResponse) (m : SearchResponse) :
    m ∈ searchRetain models ↔ m ∈ models ∧ m.gated = Gated.bool false := by
  simp [searchRetain, List.mem_filter, beq_iff_eq]

theorem splitOnP_ne_nil (p : Char → Bool) (cs : List Char) : splitOnP p cs ≠ [] := by
  cases cs with
  | nil => simp [splitOnP]
  | cons c cs =>
    unfold splitOnP
    cases h : splitOnP p cs with
    | nil => simp
    | cons s ss => by_cases hp : p c <;> simp [hp]

theorem splitOnP_all_false (p : Char → Bool) :
    ∀ cs : List Char, (∀ c ∈ cs, p c = false) → splitOnP p cs = [cs] := by
  intro cs
  induction cs with
  | nil => intro _; rfl
  | cons c cs ih =>
    intro h
    have hc : p c = false := h c (by simp)
    have ih' := ih (fun d hd => h d (by simp [hd]))
    unfold splitOnP
    rw [ih']
    simp [hc]

/-- Claim C10: `File::variant` always returns `Some` — the split from the
right always produces at least one segment, so the `None` branch of
`next()` is unreachable; and when the extension-stripped name contains
neither `-` nor `.`, the variant is that whole stripped name. -/
theorem C10_variant_total (f : File) :
    (File.variant f).isSome = true ∧
      ((∀ c ∈ stemOf f.name, isDelim c = false) →
        File.variant f = some (stemOf f.name)) := by
  constructor
  · have h := splitOnP_ne_nil isDelim (stemOf f.name)
    rw [File.variant, lastTok]
    simpa [List.getLast?_isSome] using h
  · intro h
    rw [File.variant, lastTok, splitOnP_all_false isDelim (stemOf f.name) h]
    rfl

theorem C10_variant_total_witness :
    File.variant ⟨⟨"a/b"⟩, "model.gguf", none⟩ = some "model".toList :=
  (C10_variant_total ⟨⟨"a/b"⟩, "model.gguf", none⟩).2 (by decide)

theorem fileList_sound (id : Id) :
    ∀ (entries : List TreeEntry) (m : Bits → List File),
      (∀ b f, f ∈ m b → precisionOf f.name = some b) →
      ∀ (b : Bits) (f : File), f ∈ entries.foldl (fileListStep id) m b →
        precisionOf f.name = some b := by
  intro entries
  induction entries with
  | nil =>
    intro m hm b f hf
    exact hm b f hf
  | cons e es ih =>
    intro m hm b f hf
    refine ih (fileListStep id m e) ?_ b f hf
    intro b f hf
    unfold fileListStep at hf
    by_cases hc : (e.type_ == "file" && endsWithGguf e.path) = true
    · rw [if_pos hc] at hf
      cases hp : precisionOf e.path with
      | none =>
        simp only [hp] at hf
        exact hm b f hf
      | some b' =>
        simp only [hp] at hf
        by_cases hb : b = b'
        · rw [if_pos hb] at hf
          rcases List.mem_append.mp hf with h1 | h1
          · exact hm b f h1
          · have hfe : f = ⟨id, e.path, some ⟨e.size⟩⟩ := by simpa using h1
            subst hfe
            rw [hb]
            exact hp
        · rw [if_neg hb] at hf
          exact hm b f hf
    · rw [if_neg hc] at hf
      exact hm b f hf

/-- Claim C4: for `.gguf` filenames the variant tokens `Q4_K_M`,
`IQ2_XS`, `BF16`, `F32` classify into buckets 4, 2, 16, 32; a token with
no parseable numeric remainder (such as `draft`) gets no bucket; and the
grouped listing of `File::list` only ever contains files whose name
classifies into the group's bucket, so an unclassifiable file appears in
no group. -/
theorem C4_classifier_buckets :
    (∀ p : String, endsWithGguf p = true → variantTok p = "Q4_K_M".toList →
        precisionOf p = some ⟨4⟩) ∧
      (∀ p : String, endsWithGguf p = true → variantTok p = "IQ2_XS".toList →
        precisionOf p = some ⟨2⟩) ∧
      (∀ p : String, endsWithGguf p = true → variantTok p = "BF16".toList →
        precisionOf p = some ⟨16⟩) ∧
      (∀ p : String, endsWithGguf p = true → variantTok p = "F32".toList →
        precisionOf p = some ⟨32⟩) ∧
      (∀ p : String, variantTok p = "draft".toList → precisionOf p = none) ∧
      (∀ (id : Id) (entries : List TreeEntry) (b : Bits) (f : File),
        f ∈ fileList id entries b → precisionOf f.name = some b) ∧
      (∀ (id : Id) (entries : List TreeEntry) (p : String), precisionOf p = none →
        ∀ (b : Bits) (f : File), f ∈ fileList id entries b → f.name ≠ p) := by
  refine ⟨?_, ?_, ?_, ?_, ?_, ?_, ?_⟩
  · intro p _ h
    unfold precisionOf
    rw [h]
    decide
  · intro p _ h
    unfold precisionOf
    rw [h]
    decide
  · intro p _ h
    unfold precisionOf
    rw [h]
    decide
  · intro p _ h
    unfold precisionOf
    rw [h]
    decide
  · intro p h
    unfold precisionOf
    rw [h]
    decide
  · intro id entries b f hf
    exact fileList_sound id entries (fun _ => []) (by intro b f h; simp at h) b f hf
  · intro id entries p hp b f hf heq
    have hs := fileList_sound id entries (fun _ => []) (by intro b f h; simp at h) b f hf
    rw [heq, hp] at hs
    exact Option.noConfusion hs

theorem C4_classifier_buckets_witness :
    precisionOf "m-Q4_K_M.gguf" = some ⟨4⟩ ∧
      precisionOf "m-IQ2_XS.gguf" = some ⟨2⟩ ∧
      precisionOf "m-BF16.gguf" = some ⟨16⟩ ∧
      precisionOf "m-F32.gguf" = some ⟨32⟩ ∧
      precisionOf "m-draft.gguf" = none ∧
      precisionOf file0.name = some ⟨4⟩ ∧
      file0.name ≠ "m-draft.gguf" :=
  ⟨C4_classifier_buckets.1 "m-Q4_K_M.gguf" (by decide) (by decide),
   C4_classifier_buckets.2.1 "m-IQ2_XS.gguf" (by decide) (by decide),
   C4_classifier_buckets.2.2.1 "m-BF16.gguf" (by decide) (by decide),
   C4_classifier_buckets.2.2.2.1 "m-F32.gguf" (by decide) (by decide),
   C4_classifier_buckets.2.2.2.2.1 "m-draft.gguf" (by decide),
   C4_classifier_buckets.2.2.2.2.2.1 ⟨"a/b"⟩ [⟨"file", "m-Q4_K_M.gguf", 10⟩] ⟨4⟩
     file0 (by decide),
   C4_classifier_buckets.2.2.2.2.2.2 ⟨"a/b"⟩ [⟨"file", "m-Q4_K_M.gguf", 10⟩]
     "m-draft.gguf" (by decide) ⟨4⟩ file0 (by decide)⟩

/-- Claim C7: when the destination file exists, `File::download` returns
it untouched if no size was recorded or the recorded size matches
(modelled as the `existing` outcome with unchanged state), and on a size
mismatch deletes it and falls through to migration or network transfer. -/
theorem C7_download_existing (f : File) (fs : DlFs) (len : Nat)
    (hdest : fs.dest = some len) :
    ((f.size = none ∨ f.size = some ⟨len⟩) → fileDownload f fs = (fs, .existing)) ∧
      (∀ s : Size, f.size = some s → s.val ≠ len →
        fileDownload f fs = migrateOrFetch { fs with dest := none } ∧
          ((fileDownload f fs).2 = .migrated ∨ (fileDownload f fs).2 = .fetched)) := by
  constructor
  · intro h
    unfold fileDownload
    rw [hdest]
    rcases h with h | h <;> simp [h, Option.all]
  · intro s hs hne
    have hmain : fileDownload f fs = migrateOrFetch { fs with dest := none } := by
      unfold fileDownload
      rw [hdest]
      simp [hs, Option.all, hne]
    refine ⟨hmain, ?_⟩
    rw [hmain]
    unfold migrateOrFetch
    cases hl : ({ fs with dest := none } : DlFs).legacy <;> simp

theorem C7_download_existing_witness :
    fileDownload file0 ⟨some 10, none, 99⟩ = (⟨some 10, none, 99⟩, .existing) :=
  (C7_download_existing file0 ⟨some 10, none, 99⟩ 10 rfl).1 (Or.inr rfl)

/-- Claim C8: a missing bookmark file, unparseable bookmark text, and a
JSON tree that does not decode as `APIBookmarks` all yield the empty
default (`api_src`, `apis`, `bookmarks` all empty), and `scan` still
returns successfully after any successful directory walk. -/
theorem C8_bookmark_read_tolerant :
    readBookmarksFile (.error ()) = emptyBookmarks ∧
      readBookmarksFile (.ok none) = emptyBookmarks ∧
      (∀ j : Json, decodeAPIBookmarks j = none →
        readBookmarksFile (.ok (some j)) = emptyBookmarks) ∧
      (∀ (dir : String) (locals : List (EndpointId × File))
          (book : Except Unit (Option Json)),
        scanExc dir (.ok locals) book = .ok (scanModel dir locals book)) := by
  refine ⟨rfl, rfl, ?_, ?_⟩
  · intro j hj
    show (decodeAPIBookmarks j).getD emptyBookmarks = emptyBookmarks
    rw [hj]
    rfl
  · intro dir locals book
    rfl

theorem C8_bookmark_read_tolerant_witness :
    readBookmarksFile (.ok (some Json.null)) = emptyBookmarks ∧
      scanExc "lib" (.ok []) (.error ()) = .ok (scanModel "lib" [] (.error ())) :=
  ⟨C8_bookmark_read_tolerant.2.2.1 Json.null rfl,
   C8_bookmark_read_tolerant.2.2.2 "lib" [] (.error ())⟩

/-- Claim C9: for a `FileAndAPI` whose `api` side is populated, download
performs no byte transfer: the descriptor path is the destination root
joined with the slash-sanitized id plus `.json`; an existing file at that
path is left unchanged, otherwise exactly that path receives the
serialized `ModelOnline`; the path is returned in both cases. -/
theorem C9_api_download_descriptor (fa : FileAndAPI) (ap : ModelOnline)
    (hap : fa.api = some ap) (dir : String) (store : String → Option Json) :
    ((store (dir ++ "/" ++ sanitizeId (ap.endpoint_id.slash_id).str ++ ".json")).isSome
        = true →
      faDownload fa dir store
        = .api store (dir ++ "/" ++ sanitizeId (ap.endpoint_id.slash_id).str ++ ".json")) ∧
      (store (dir ++ "/" ++ sanitizeId (ap.endpoint_id.slash_id).str ++ ".json") = none →
        faDownload fa dir store
          = .api
            (fun q =>
              if q = dir ++ "/" ++ sanitizeId (ap.endpoint_id.slash_id).str ++ ".json"
              then some (encodeModelOnline ap) else store q)
            (dir ++ "/" ++ sanitizeId (ap.endpoint_id.slash_id).str ++ ".json")) := by
  constructor
  · intro h
    unfold faDownload
    rw [hap]
    cases hsp : store (dir ++ "/" ++ sanitizeId (ap.endpoint_id.slash_id).str ++ ".json") with
    | none => rw [hsp] at h; simp at h
    | some v => simp [hsp]
  · intro h
    unfold faDownload
    rw [hap]
    simp [h]

theorem C9_api_download_descriptor_witness :
    faDownload ⟨none, some apNano⟩ "root" (fun _ => none)
      = .api
        (fun q =>
          if q = "root" ++ "/" ++ sanitizeId (apNano.endpoint_id.slash_id).str ++ ".json"
          then some (encodeModelOnline apNano) else none)
        ("root" ++ "/" ++ sanitizeId (apNano.endpoint_id.slash_id).str ++ ".json") :=
  (C9_api_download_descriptor ⟨none, some apNano⟩ apNano rfl "root" (fun _ => none)).2 rfl

theorem alookup_cons {α β : Type} [DecidableEq α] (k : α) (p : α × β) (ps : List (α × β)) :
    alookup k (p :: ps) = if p.1 = k then some p.2 else alookup k ps := rfl

theorem alookup_mem {α β : Type} [DecidableEq α] (k : α) (v : β) :
    ∀ l : List (α × β), alookup k l = some v → (k, v) ∈ l := by
  intro l
  induction l with
  | nil => intro h; exact Option.noConfusion h
  | cons p ps ih =>
    intro h
    rw [alookup_cons] at h
    by_cases hp : p.1 = k
    · rw [if_pos hp] at h
      have hv : p.2 = v := Option.some.inj h
      have hkv : (k, v) = p := by rw [← hp, ← hv]
      simp [hkv]
    · rw [if_neg hp] at h
      exact List.mem_cons_of_mem p (ih h)

theorem alookup_isSome_of_mem {α β : Type} [DecidableEq α] (k : α) (v : β) :
    ∀ l : List (α × β), (k, v) ∈ l → (alookup k l).isSome = true := by
  intro l
  induction l with
  | nil => intro h; simp at h
  | cons p ps ih =>
    intro h
    rw [alookup_cons]
    by_cases hp : p.1 = k
    · rw [if_pos hp]; rfl
    · rw [if_neg hp]
      rcases List.mem_cons.mp h with h1 | h1
      · exact absurd (congrArg Prod.fst h1.symm) hp
      · exact ih h1

theorem alookup_append_some {α β : Type} [DecidableEq α] (k : α) (v : β)
    (xs ys : List (α × β)) (h : alookup k xs = some v) :
    alookup k (xs ++ ys) = some v := by
  induction xs with
  | nil => exact Option.noConfusion h
  | cons p ps ih =>
    rw [alookup_cons] at h
    rw [List.cons_append, alookup_cons]
    by_cases hp : p.1 = k
    · rw [if_pos hp] at h ⊢; exact h
    · rw [if_neg hp] at h ⊢; exact ih h

theorem alookup_upsert {α β : Type} [DecidableEq α] (k k' : α) (v : β)
    (m : List (α × β)) :
    alookup k (upsert m k' v) = if k' = k then some v else alookup k m := by
  unfold upsert
  induction m with
  | nil =>
    by_cases h : k' = k <;> simp [alookup, h]
  | cons p ps ih =>
    rw [List.filter_cons]
    by_cases hp : p.1 = k'
    · rw [if_neg (by simp [hp])]
      rw [ih]
      by_cases hk : k' = k
      · rw [if_pos hk, if_pos hk]
      · rw [if_neg hk, if_neg hk, alookup_cons,
          if_neg (fun hc => hk (hp ▸ hc : k' = k))]
    · rw [if_pos (by simp [hp])]
      rw [List.cons_append, alookup_cons]
      by_cases hpk : p.1 = k
      · rw [if_pos hpk]
        rw [if_neg (fun hc => hp (hpk.trans hc.symm)), alookup_cons, if_pos hpk]
      · rw [if_neg hpk, ih, alookup_cons, if_neg hpk]

theorem alookup_collectMap {α β : Type} [DecidableEq α] (k : α) (l : List (α × β)) :
    alookup k (collectMap l) = alookup k l.reverse := by
  induction l using List.reverseRecOn with
  | nil => rfl
  | append_singleton xs p ih =>
    rw [collectMap, List.foldl_append, List.foldl_cons, List.foldl_nil]
    rw [show xs.foldl (fun m p => upsert m p.1 p.2) [] = collectMap xs from rfl]
    rw [alookup_upsert, List.reverse_append, List.reverse_singleton,
      List.singleton_append, alookup_cons, ih]

theorem mem_upsert {α β : Type} [DecidableEq α] (q : α × β) (m : List (α × β))
    (k : α) (v : β) (h : q ∈ upsert m k v) : q ∈ m ∨ q = (k, v) := by
  unfold upsert at h
  rcases List.mem_append.mp h with h1 | h1
  · exact Or.inl (List.mem_of_mem_filter h1)
  · exact Or.inr (by simpa using h1)

theorem mem_foldl_upsert {α β : Type} [DecidableEq α] :
    ∀ (l acc : List (α × β)) (q : α × β),
      q ∈ l.foldl (fun m p => upsert m p.1 p.2) acc → q ∈ acc ∨ q ∈ l := by
  intro l
  induction l with
  | nil => intro acc q h; exact Or.inl h
  | cons p ps ih =>
    intro acc q h
    rw [List.foldl_cons] at h
    rcases ih (upsert acc p.1 p.2) q h with h1 | h1
    · rcases mem_upsert q acc p.1 p.2 h1 with h2 | h2
      · exact Or.inl h2
      · exact Or.inr (by simp [h2])
    · exact Or.inr (List.mem_cons_of_mem p h1)

theorem mem_collectMap {α β : Type} [DecidableEq α] (q : α × β) (l : List (α × β))
    (h : q ∈ collectMap l) : q ∈ l := by
  rcases mem_foldl_upsert l [] q h with h1 | h1
  · simp at h1
  · exact h1

/-- Claim C5: the bookmark payload assembled by `save_bookmarks` carries
exactly the `FileOrAPI::API` entries of `files` in its `apis` map —
never a local-file entry — together with `api_src` and `bookmarks` passed
through unchanged. -/
theorem C5_save_writes_only_api (lib : Library) :
    (∀ (k : EndpointId) (a : ModelOnline),
        (k, a) ∈ (saveAB lib).apis ↔ (k, FileOrAPI.API a) ∈ lib.files) ∧
      (∀ (k : EndpointId) (f : File), (k, FileOrAPI.File f) ∈ lib.files →
        ∀ a : ModelOnline, (k, a) ∈ (saveAB lib).apis →
          (k, FileOrAPI.API a) ∈ lib.files) ∧
      (saveAB lib).api_src = lib.api_src ∧
      (saveAB lib).bookmarks = lib.bookmarks := by
  have hmem : ∀ (k : EndpointId) (a : ModelOnline),
      (k, a) ∈ (saveAB lib).apis ↔ (k, FileOrAPI.API a) ∈ lib.files := by
    intro k a
    show (k, a) ∈ lib.files.filterMap _ ↔ _
    rw [List.mem_filterMap]
    constructor
    · rintro ⟨⟨k', v⟩, hmem, hma⟩
      cases v with
      | File f => exact Option.noConfusion hma
      | API a' =>
        have h1 : k' = k ∧ a' = a := by
          have := Option.some.inj hma
          exact ⟨congrArg Prod.fst this, congrArg Prod.snd this⟩
        rw [← h1.1, ← h1.2]
        exact hmem
    · intro hmem
      exact ⟨(k, FileOrAPI.API a), hmem, rfl⟩
  exact ⟨hmem, fun k f _ a ha => (hmem k a).mp ha, rfl, rfl⟩

theorem C5_save_writes_only_api_witness :
    (EndpointId.Remote .NanoGPT ⟨"a/b"⟩, apNano) ∈ (saveAB lib0).apis ∧
      (saveAB lib0).api_src = lib0.api_src ∧
      (saveAB lib0).bookmarks = lib0.bookmarks :=
  ⟨((C5_save_writes_only_api lib0).1 (EndpointId.Remote .NanoGPT ⟨"a/b"⟩) apNano).mpr
      (List.mem_cons_self _ _),
   (C5_save_writes_only_api lib0).2.2.1,
   (C5_save_writes_only_api lib0).2.2.2⟩

/-- Claim C6: in the merge of `scan`, bookmark `apis` entries are
inserted before the scanned local files, so any endpoint id present in
both ends up bound to the local `FileOrAPI::File` entry. -/
theorem C6_local_shadows_bookmark
    (apis : List (EndpointId × ModelOnline)) (locals : List (EndpointId × File))
    (k : EndpointId) (_ha : ∃ a, (k, a) ∈ apis) (hl : ∃ f, (k, f) ∈ locals) :
    ∃ f : File,
      alookup k (scanFiles apis locals) = some (FileOrAPI.File f) ∧ (k, f) ∈ locals := by
  obtain ⟨f0, hf0⟩ := hl
  have hmemL : (k, FileOrAPI.File f0)
      ∈ (locals.map fun p => (p.1, FileOrAPI.File p.2)).reverse := by
    rw [List.mem_reverse, List.mem_map]
    exact ⟨(k, f0), hf0, rfl⟩
  have hsome := alookup_isSome_of_mem k (FileOrAPI.File f0)
    ((locals.map fun p => (p.1, FileOrAPI.File p.2)).reverse) hmemL
  obtain ⟨v, hv⟩ := Option.isSome_iff_exists.mp hsome
  have hvmem := alookup_mem k v _ hv
  rw [List.mem_reverse, List.mem_map] at hvmem
  obtain ⟨⟨k', f'⟩, hpmem, hpeq⟩ := hvmem
  have hk' : k' = k := congrArg Prod.fst hpeq
  have hv' : FileOrAPI.File f' = v := congrArg Prod.snd hpeq
  refine ⟨f', ?_, hk' ▸ hpmem⟩
  rw [scanFiles, alookup_collectMap, List.reverse_append]
  rw [alookup_append_some k v _ _ hv, hv']

theorem C6_local_shadows_bookmark_witness :
    ∃ f : File,
      alookup (EndpointId.Local ⟨"a/b"⟩)
          (scanFiles [(EndpointId.Local ⟨"a/b"⟩, apLocalKey)]
            [(EndpointId.Local ⟨"a/b"⟩, file0)])
        = some (FileOrAPI.File f) ∧
      (EndpointId.Local ⟨"a/b"⟩, f) ∈ [(EndpointId.Local ⟨"a/b"⟩, file0)] :=
  C6_local_shadows_bookmark [(EndpointId.Local ⟨"a/b"⟩, apLocalKey)]
    [(EndpointId.Local ⟨"a/b"⟩, file0)] (EndpointId.Local ⟨"a/b"⟩)
    ⟨apLocalKey, List.mem_singleton.mpr rfl⟩ ⟨file0, List.mem_singleton.mpr rfl⟩

theorem omapM_map_roundtrip {α β : Type} (enc : α → β) (dec : β → Option α)
    (h : ∀ x, dec (enc x) = some x) :
    ∀ l : List α, omapM dec (l.map enc) = some l := by
  intro l
  induction l with
  | nil => rfl
  | cons a as ih => simp [omapM, h a, ih]

theorem decodeAPIType_encode (t : APIType) :
    decodeAPIType (encodeAPIType t) = some t := by
  cases t <;> rfl

theorem decodeOpenAIConfig_encode (c : OpenAIConfigSerde) :
    decodeOpenAIConfig (encodeOpenAIConfig c) = some c := rfl

theorem decodeAPIAccess_encode (a : APIAccess) :
    decodeAPIAccess (encodeAPIAccess a) = some a := by
  obtain ⟨oc, kind⟩ := a
  cases oc <;> cases kind <;> rfl

theorem decodeApiSrc_encode (l : List (APIType × APIAccess)) :
    decodeApiSrc (encodeApiSrc l) = some l := by
  show omapM _ (l.map _) = some l
  refine omapM_map_roundtrip _ _ ?_ l
  intro p
  simp [decodeAPIType_encode, decodeAPIAccess_encode]

theorem decodeEndpointId_encode (e : EndpointId) :
    decodeEndpointId (encodeEndpointId e) = some e := by
  cases e with
  | Local id => rfl
  | Remote t id => cases t <;> rfl

theorem decodeBookmarksList_encode (l : List EndpointId) :
    decodeBookmarksList (.arr (l.map encodeEndpointId)) = some l := by
  show omapM decodeEndpointId (l.map encodeEndpointId) = some l
  exact omapM_map_roundtrip _ _ decodeEndpointId_encode l

theorem decodeApis_empty : decodeApis (.obj []) = some [] := rfl

theorem decodeApis_nil (j : Json) (l : List (EndpointId × ModelOnline))
    (h : decodeApis j = some l) : l = [] := by
  cases j with
  | obj fs =>
    cases fs with
    | nil =>
      have : some ([] : List (EndpointId × ModelOnline)) = some l := h
      exact (Option.some.inj this).symm
    | cons p ps => simp [decodeApis, omapM, decodeEndpointIdKey] at h
  | null => exact Option.noConfusion h
  | bool b => exact Option.noConfusion h
  | num x => exact Option.noConfusion h
  | str s => exact Option.noConfusion h
  | arr es => exact Option.noConfusion h

theorem decodeAPIBookmarks_apis_nil (j : Json) (b : APIBookmarks)
    (h : decodeAPIBookmarks j = some b) : b.apis = [] := by
  cases j with
  | obj fs =>
    simp only [decodeAPIBookmarks, Option.bind_eq_bind, bind, Option.bind_eq_some] at h
    obtain ⟨s, _, a, ha, bs, _, hpure⟩ := h
    have hb : (⟨s, a, bs⟩ : APIBookmarks) = b := Option.some.inj hpure
    rw [← hb]
    obtain ⟨aj, _, haj⟩ := ha
    exact decodeApis_nil aj a haj
  | null => exact Option.noConfusion h
  | bool bb => exact Option.noConfusion h
  | num x => exact Option.noConfusion h
  | str s => exact Option.noConfusion h
  | arr es => exact Option.noConfusion h

theorem readBookmarksFile_apis_nil (r : Except Unit (Option Json)) :
    (readBookmarksFile r).apis = [] := by
  match r with
  | .error _ => rfl
  | .ok none => rfl
  | .ok (some j) =>
    show ((decodeAPIBookmarks j).getD emptyBookmarks).apis = []
    cases h : decodeAPIBookmarks j with
    | none => rfl
    | some b => exact decodeAPIBookmarks_apis_nil j b h

theorem encode_decode_bookmarks (b : APIBookmarks) (hb : b.apis = []) :
    ∃ j : Json, encodeAPIBookmarks b = some j ∧ decodeAPIBookmarks j = some b := by
  obtain ⟨src, apis, bms⟩ := b
  simp only at hb
  subst hb
  refine ⟨.obj [("api_src", encodeApiSrc src), ("apis", .obj []),
    ("bookmarks", .arr (bms.map encodeEndpointId))], rfl, ?_⟩
  show (do
      let s ← getField _ "api_src" >>= decodeApiSrc
      let a ← getField _ "apis" >>= decodeApis
      let bs ← getField _ "bookmarks" >>= decodeBookmarksList
      pure (⟨s, a, bs⟩ : APIBookmarks)) = some ⟨src, [], bms⟩
  rw [show getField [("api_src", encodeApiSrc src), ("apis", Json.obj []),
      ("bookmarks", Json.arr (bms.map encodeEndpointId))] "api_src"
      = some (encodeApiSrc src) from rfl,
    show getField [("api_src", encodeApiSrc src), ("apis", Json.obj []),
      ("bookmarks", Json.arr (bms.map encodeEndpointId))] "apis"
      = some (Json.obj []) from rfl,
    show getField [("api_src", encodeApiSrc src), ("apis", Json.obj []),
      ("bookmarks", Json.arr (bms.map encodeEndpointId))] "bookmarks"
      = some (Json.arr (bms.map encodeEndpointId)) from rfl]
  simp [decodeApiSrc_encode, decodeApis_empty, decodeBookmarksList_encode]

theorem scanFiles_nil_api (locals : List (EndpointId × File)) (k : EndpointId)
    (v : FileOrAPI) (hm : (k, v) ∈ scanFiles [] locals) :
    ∃ f : File, v = FileOrAPI.File f := by
  have h := mem_collectMap _ _ hm
  simp only [List.map_nil, List.nil_append, List.mem_map] at h
  obtain ⟨p, _, hpe⟩ := h
  exact ⟨p.2, (congrArg Prod.snd hpe).symm⟩

theorem saveAB_scan_apis_nil (dir : String) (locals : List (EndpointId × File))
    (book : Except Unit (Option Json)) :
    (saveAB (scanModel dir locals book)).apis = [] := by
  show (scanModel dir locals book).files.filterMap _ = []
  rw [List.filterMap_eq_nil_iff]
  intro p hp
  have hnil : (readBookmarksFile book).apis = [] := readBookmarksFile_apis_nil book
  have hfiles : (scanModel dir locals book).files
      = scanFiles (readBookmarksFile book).apis locals := rfl
  rw [hfiles, hnil] at hp
  obtain ⟨f, hf⟩ := scanFiles_nil_api locals p.1 p.2 hp
  rw [hf]

/-- Claim C2: running `scan`, then `save_bookmarks` on the resulting
library, then `scan` again recovers for the API-backed subset exactly
what was written — the serialization succeeds, the second scan's set of
API-valued endpoint ids equals the key set of the written `apis` map (both
are necessarily empty, because a data-carrying `EndpointId` can be
neither written nor read back as a JSON map key), and `api_src`
round-trips unchanged through the JSON serialization and
deserialization. -/
theorem C2_scan_save_scan_roundtrip (dir : String)
    (l1 l2 : List (EndpointId × File)) (book : Except Unit (Option Json)) :
    ∃ j : Json,
      saveBookmarksJson (scanModel dir l1 book) = some j ∧
      (saveAB (scanModel dir l1 book)).apis = [] ∧
      (∀ k : EndpointId,
        (∃ a, alookup k (scanModel dir l2 (.ok (some j))).files
            = some (FileOrAPI.API a)) ↔
          ∃ a, (k, a) ∈ (saveAB (scanModel dir l1 book)).apis) ∧
      (scanModel dir l2 (.ok (some j))).api_src
        = (scanModel dir l1 book).api_src := by
  have hnil := saveAB_scan_apis_nil dir l1 book
  obtain ⟨j, hj, hdec⟩ := encode_decode_bookmarks (saveAB (scanModel dir l1 book)) hnil
  refine ⟨j, hj, hnil, ?_, ?_⟩
  · intro k
    constructor
    · rintro ⟨a, ha⟩
      exfalso
      have hmem := alookup_mem k (FileOrAPI.API a) _ ha
      have hfiles : (scanModel dir l2 (.ok (some j))).files
          = scanFiles (readBookmarksFile (.ok (some j))).apis l2 := rfl
      rw [hfiles, readBookmarksFile_apis_nil (.ok (some j))] at hmem
      obtain ⟨f, hf⟩ := scanFiles_nil_api l2 k (FileOrAPI.API a) hmem
      exact FileOrAPI.noConfusion hf
    · rintro ⟨a, ha⟩
      rw [hnil] at ha
      simp at ha
  · show ((decodeAPIBookmarks j).getD emptyBookmarks).api_src
      = (scanModel dir l1 book).api_src
    rw [hdec]
    rfl

end Icebreaker
